import Mathlib

/-!
Verification of the entity factory resolution engine of the
`typeorm-factories` library (src/factory.util.ts), as a shallow embedding.

JavaScript values that can appear as entity attributes are modelled by an
inductive `Value`; the global sequence store and the log used by probe
hooks form an explicit `PipeState` threaded through every effectful
operation; a JS exception is an explicit `JsErr` result.  `make`,
`makeMany`, `build`, the definition builder and `resetSequences` are
translated from `src/factory.util.ts`.
-/

namespace TypeormFactories

/-- A thrown JS error: either a `TypeError` produced by the runtime
(e.g. reading a property of `null`) or an `Error` constructed by the
library with a message. -/
inductive JsErr where
  | typeError (msg : String)
  | jsError (msg : String)
deriving Repr, DecidableEq

/-- JS values as far as the resolution pipeline can distinguish them.
`vThen r` is a thenable object whose `then` resolves to `r`;
`vObjMake nm res` is an object exposing a callable `make` (for example an
`EntityFactory` placed as an attribute value) whose invocation yields
`res`, and whose `name` property is `nm` (absent when `none`).  Plain
objects (`vObj`) carry their own enumerable string-keyed fields. -/
inductive Value where
  | vNull
  | vUndefined
  | vBool (b : Bool)
  | vNum (n : Int)
  | vStr (s : String)
  | vDate (time : Int)
  | vThen (res : Value)
  | vObj (fields : List (String × Value))
  | vObjMake (nm : Option String) (res : Except JsErr Value)
  | vArr (elems : List Value)

/-- Association-list lookup, the behaviour of `Map.get` / property read on
the models that use string-keyed lists. -/
def alget {α : Type} : List (String × α) → String → Option α
  | [], _ => none
  | (k, v) :: rest, key => if k = key then some v else alget rest key

/-- Association-list update, the behaviour of `Map.set` / property
assignment: overwrite an existing key in place, otherwise append. -/
def alset {α : Type} : List (String × α) → String → α → List (String × α)
  | [], key, v => [(key, v)]
  | (k, w) :: rest, key, v =>
    if k = key then (key, v) :: rest else (k, w) :: alset rest key v

/-- The JS `typeof` operator on modelled values. -/
def typeofValue : Value → String
  | .vNull => "object"
  | .vUndefined => "undefined"
  | .vBool _ => "boolean"
  | .vNum _ => "number"
  | .vStr _ => "string"
  | .vDate _ => "object"
  | .vThen _ => "object"
  | .vObj _ => "object"
  | .vObjMake _ _ => "object"
  | .vArr _ => "object"

/-- JS truthiness (`!!o`). -/
def truthy : Value → Bool
  | .vNull => false
  | .vUndefined => false
  | .vBool b => b
  | .vNum n => n != 0
  | .vStr s => s != ""
  | _ => true

/-- `o instanceof Date`. -/
def isDate : Value → Bool
  | .vDate _ => true
  | _ => false

/-- `typeof o.then === 'function'`: only thenables expose a callable
`then` in the model. -/
def hasCallableThen : Value → Bool
  | .vThen _ => true
  | _ => false

/-- `isPromiseLike` from factory.util.ts:
`!!o && (typeof o === 'object' || typeof o === 'function') &&
typeof o.then === 'function' && !(o instanceof Date)`. -/
def isPromiseLike (o : Value) : Bool :=
  truthy o
    && (typeofValue o == "object" || typeofValue o == "function")
    && hasCallableThen o
    && !(isDate o)

/-- JS `await v`: unwrap thenables (recursively, as `await` does). -/
def awaitValue : Value → Value
  | .vThen r => awaitValue r
  | v => v

/-- The body of the `try` block in `resolveEntity`: read the `make`
property of the attribute value (a `TypeError` when the value is `null`)
and, when it is a callable, invoke it; any other value is left
unchanged. -/
def tryMakeSub : Value → Except JsErr Value
  | .vNull => .error (.typeError "Cannot read properties of null (reading 'make')")
  | .vObjMake _ res => res
  | v => .ok v

/-- The property read `subEntityFactory.name` performed while the `catch`
block of `resolveEntity` builds its message: a `TypeError` when the
sub-factory value is `null`, otherwise the (stringified) `name`
property.  Only `null` and failing `make`-bearing objects ever reach the
`catch` block. -/
def subFactoryName : Value → Except JsErr String
  | .vNull => .error (.typeError "Cannot read properties of null (reading 'name')")
  | .vObjMake (some nm) _ => .ok nm
  | _ => .ok "undefined"

/-- Resolution of one own attribute value inside `resolveEntity`:
await promise-like values, then treat any non-`Date` value of
`typeof === 'object'` as a potential sub-factory, invoking its `make`
inside a `try` whose `catch` rethrows `Could not make <sub.name>`. -/
def resolveAttribute (v0 : Value) : Except JsErr Value :=
  let v := if isPromiseLike v0 then awaitValue v0 else v0
  if typeofValue v == "object" && !(isDate v) then
    match tryMakeSub v with
    | .ok v2 => .ok v2
    | .error _ =>
      match subFactoryName v with
      | .error e => .error e
      | .ok nm => .error (.jsError ("Could not make " ++ nm))
  else
    .ok v

/-- Resolution of every own enumerable attribute of an object, in field
order, stopping at the first attribute whose resolution throws. -/
def resolveFields : List (String × Value) → Except JsErr (List (String × Value))
  | [] => .ok []
  | (k, v) :: rest =>
    match resolveAttribute v with
    | .error e => .error e
    | .ok v2 =>
      match resolveFields rest with
      | .error e => .error e
      | .ok rest2 => .ok ((k, v2) :: rest2)

/-- Element-wise resolution for an array entity (`for..in` over an array
visits its index properties). -/
def resolveElems : List Value → Except JsErr (List Value)
  | [] => .ok []
  | v :: rest =>
    match resolveAttribute v with
    | .error e => .error e
    | .ok v2 =>
      match resolveElems rest with
      | .error e => .error e
      | .ok rest2 => .ok (v2 :: rest2)

/-- `EntityFactory.resolveEntity`: iterate the raw entity's own
enumerable attributes and resolve each one; non-object entities have no
own enumerable attributes to visit. -/
def resolveEntity : Value → Except JsErr Value
  | .vObj fields =>
    match resolveFields fields with
    | .error e => .error e
    | .ok fields2 => .ok (.vObj fields2)
  | .vArr elems =>
    match resolveElems elems with
    | .error e => .error e
    | .ok elems2 => .ok (.vArr elems2)
  | v => .ok v

/-- The process-wide mutable state the pipeline touches: the `sequences`
map (entity key to counter) and an observation log that probe hooks,
states, maps and generators may write to (standing in for the arbitrary
side effects user callbacks can perform).  The log is kept
most-recent-first: an event is recorded by prepending it, so the
chronological order of events is the reverse of the list. -/
structure PipeState where
  sequences : List (String × Nat)
  log : List String
deriving Repr, DecidableEq

/-- Result of one effectful step: a normal value or a thrown error,
together with the state after the step.  The global state survives a
throw, exactly as the process-wide maps survive a JS exception. -/
abbrev MResult (α : Type) := Except JsErr α × PipeState

/-- An effectful entity transformer: the shape of hooks, state functions
and map functions.  JS hooks mutate the entity in place and return
nothing; the embedding threads the mutated entity through instead. -/
abbrev EffFn := Value → PipeState → MResult Value

/-- One entry of `definition.associations`
(`AssociationDefinition` in types.ts); the target class is represented by
its entity key. -/
structure AssociationDefinition where
  fieldName : String
  entityName : String
  isArray : Bool
  count : Option Nat

/-- One registry entry (`EntityFactoryDefinition` in types.ts).
`entityNew` is the default instance `new entity()` constructs; the
generator receives the drawn sequence number (faker and settings are
opaque and already captured in the closure). -/
structure EntityFactoryDefinition where
  entityNew : Value
  factoryFn : Option (Nat → PipeState → MResult Value)
  states : List (String × EffFn)
  beforeMakeHooks : List EffFn
  afterMakeHooks : List EffFn
  associations : List AssociationDefinition

/-- The `entityFactories` registry, keyed by entity name. -/
abbrev Registry := List (String × EntityFactoryDefinition)

/-- `FactoryDefinitionBuilder.state`: register or overwrite a named state
function on the definition. -/
def builderState (d : EntityFactoryDefinition) (nm : String) (fn : EffFn) :
    EntityFactoryDefinition :=
  { d with states := alset d.states nm fn }

/-- `FactoryDefinitionBuilder.beforeMake`: append a before hook. -/
def builderBeforeMake (d : EntityFactoryDefinition) (hook : EffFn) :
    EntityFactoryDefinition :=
  { d with beforeMakeHooks := d.beforeMakeHooks ++ [hook] }

/-- `FactoryDefinitionBuilder.afterMake`: append an after hook. -/
def builderAfterMake (d : EntityFactoryDefinition) (hook : EffFn) :
    EntityFactoryDefinition :=
  { d with afterMakeHooks := d.afterMakeHooks ++ [hook] }

/-- The association record built by `FactoryDefinitionBuilder.association`:
`isArray` is `options?.count !== undefined && options.count > 1`. -/
def associationDecl (fieldName : String) (entityName : String)
    (count : Option Nat) : AssociationDefinition :=
  { fieldName := fieldName
    entityName := entityName
    isArray := match count with
      | some n => decide (1 < n)
      | none => false
    count := count }

/-- `FactoryDefinitionBuilder.association`: append an association
declaration. -/
def builderAssociation (d : EntityFactoryDefinition) (fieldName : String)
    (entityName : String) (count : Option Nat) : EntityFactoryDefinition :=
  { d with associations := d.associations ++ [associationDecl fieldName entityName count] }

/-- An `EntityFactory` instance: entity key, the default-constructed
instance of the bound class, the definition looked up at construction,
the optional map function and the activated state names. -/
structure EntityFactory where
  name : String
  entityNew : Value
  definition : EntityFactoryDefinition
  mapFunction : Option EffFn
  activeStates : List String

/-- The exported `factory` function: look up the definition for the key,
failing when absent, and return a fresh `EntityFactory` with no map
function and no activated states. -/
def factoryFor (reg : Registry) (name : String) : Except JsErr EntityFactory :=
  match alget reg name with
  | none => .error (.jsError ("Factory for " ++ name ++ " is not defined"))
  | some d =>
    .ok { name := name, entityNew := d.entityNew, definition := d,
          mapFunction := none, activeStates := [] }

/-- `EntityFactory.map`: record the post-processing transform. -/
def facMap (f : EntityFactory) (fn : EffFn) : EntityFactory :=
  { f with mapFunction := some fn }

/-- `EntityFactory.state`: push one state name onto the activation list. -/
def facState (f : EntityFactory) (nm : String) : EntityFactory :=
  { f with activeStates := f.activeStates ++ [nm] }

/-- `EntityFactory.states`: push several state names in order. -/
def facStates (f : EntityFactory) (nms : List String) : EntityFactory :=
  { f with activeStates := f.activeStates ++ nms }

/-- Property assignment `entity[key] = v` on an entity object. -/
def setField (e : Value) (key : String) (v : Value) : Value :=
  match e with
  | .vObj fields => .vObj (alset fields key v)
  | e => e

/-- Property read used by the specifications below. -/
def getOwn : Value → String → Option Value
  | .vObj fields, key => alget fields key
  | _, _ => none

/-- The `for (const key in params) if (params.hasOwnProperty(key))
entity[key] = params[key]` loop shared by `build` and the override step of
`make`: assign every provided own field onto the entity in order. -/
def applyParams (params : List (String × Value)) (e : Value) : Value :=
  params.foldl (fun acc kv => setField acc kv.1 kv.2) e

/-- `EntityFactory.build`: construct a bare default instance and assign
each provided own field directly; no generator, hooks, states,
associations or map function are involved. -/
def build (fac : EntityFactory) (params : List (String × Value)) : Value :=
  applyParams params fac.entityNew

/-- The `build` method as an effectful call: the method body performs no
registry, sequence or log operation, so it is the pure `build`. -/
def buildCall (fac : EntityFactory) (params : List (String × Value)) :
    PipeState → MResult Value :=
  fun st => (.ok (build fac params), st)

/-- `resetSequences`: set every currently-tracked counter back to 0
(keys are kept, values zeroed). -/
def resetSequencesSt (st : PipeState) : PipeState :=
  { st with sequences := st.sequences.map (fun kv => (kv.1, 0)) }

/-- The `for (const hook of hooks) await hook(entity)` loops: run each
hook in insertion order, each awaited before the next starts. -/
def runHooks : List EffFn → Value → PipeState → MResult Value
  | [], entity, st => (.ok entity, st)
  | hook :: rest, entity, st =>
    match hook entity st with
    | (.error e, st) => (.error e, st)
    | (.ok entity2, st) => runHooks rest entity2 st

/-- The states loop of `make`: for each activated name in activation
order, look the state function up in the definition and apply it,
throwing `State "<name>" is not defined for <entity>` when absent. -/
def applyStates (states : List (String × EffFn)) (facName : String) :
    List String → Value → PipeState → MResult Value
  | [], entity, st => (.ok entity, st)
  | stateName :: rest, entity, st =>
    match alget states stateName with
    | some stateFn =>
      match stateFn entity st with
      | (.error e, st) => (.error e, st)
      | (.ok entity2, st) => applyStates states facName rest entity2 st
    | none =>
      (.error (.jsError ("State \"" ++ stateName ++ "\" is not defined for " ++ facName)), st)

/-- The indexed loop of `makeMany`, abstracted over the bound `make`
call: invoke it once per index, awaiting each production before the next
starts, and collect results in call order; the first failure aborts the
whole loop. -/
def makeManyGo (mk : PipeState → MResult Value) :
    Nat → List Value → PipeState → MResult (List Value)
  | 0, acc, st => (.ok acc, st)
  | n + 1, acc, st =>
    match mk st with
    | (.error e, st) => (.error e, st)
    | (.ok v, st) => makeManyGo mk n (acc ++ [v]) st

/-- The associations loop of `make`, abstracted over the production
calls at the next recursion depth: for each declaration in order, produce
the target via a fresh `factory(...)` call — `makeMany(count)` when
`isArray && count`, else a single `make()` — and assign the result to the
named field. -/
def assocGo (reg : Registry)
    (mkOne : EntityFactory → PipeState → MResult Value)
    (mkMany : EntityFactory → Nat → PipeState → MResult (List Value)) :
    List AssociationDefinition → Value → PipeState → MResult Value
  | [], entity, st => (.ok entity, st)
  | assoc :: rest, entity, st =>
    if assoc.isArray && (match assoc.count with | some n => n != 0 | none => false) then
      match factoryFor reg assoc.entityName with
      | .error e => (.error e, st)
      | .ok subFac =>
        match mkMany subFac (assoc.count.getD 0) st with
        | (.error e, st) => (.error e, st)
        | (.ok vs, st) =>
          assocGo reg mkOne mkMany rest (setField entity assoc.fieldName (.vArr vs)) st
    else
      match factoryFor reg assoc.entityName with
      | .error e => (.error e, st)
      | .ok subFac =>
        match mkOne subFac st with
        | (.error e, st) => (.error e, st)
        | (.ok v, st) =>
          assocGo reg mkOne mkMany rest (setField entity assoc.fieldName v) st

/-- The body of `EntityFactory.make`, abstracted over the production
call used for nested associations (`subMake` is `make` at the next
recursion depth).  The pipeline order is exactly that of the source:
sequence draw and increment, generator, nested-value resolution, before
hooks, associations, activated states, map function, override fields,
after hooks. -/
def makeF (reg : Registry)
    (subMake : EntityFactory → List (String × Value) → PipeState → MResult Value)
    (fac : EntityFactory) (overrideParams : List (String × Value))
    (st : PipeState) : MResult Value :=
  match fac.definition.factoryFn with
  | none => (.error (.jsError "Could not found entity"), st)
  | some factoryFunction =>
    let currentSequence := (alget st.sequences fac.name).getD 0
    let st1 : PipeState :=
      { st with sequences := alset st.sequences fac.name (currentSequence + 1) }
    match factoryFunction currentSequence st1 with
    | (.error e, st2) => (.error e, st2)
    | (.ok raw, st2) =>
      match resolveEntity raw with
      | .error e => (.error e, st2)
      | .ok entity0 =>
        match runHooks fac.definition.beforeMakeHooks entity0 st2 with
        | (.error e, st3) => (.error e, st3)
        | (.ok entity1, st3) =>
          match assocGo reg
              (fun subFac => subMake subFac [])
              (fun subFac n => makeManyGo (subMake subFac []) n [])
              fac.definition.associations entity1 st3 with
          | (.error e, st4) => (.error e, st4)
          | (.ok entity2, st4) =>
            match applyStates fac.definition.states fac.name fac.activeStates entity2 st4 with
            | (.error e, st5) => (.error e, st5)
            | (.ok entity3, st5) =>
              match (match fac.mapFunction with
                     | some mapFn => mapFn entity3 st5
                     | none => (.ok entity3, st5)) with
              | (.error e, st6) => (.error e, st6)
              | (.ok entity4, st6) =>
                runHooks fac.definition.afterMakeHooks (applyParams overrideParams entity4) st6

/-- `EntityFactory.make`.  The `fuel` argument bounds the recursion depth
through nested association productions (the JS call-stack bound); every
theorem below supplies ample fuel, and a definition with no associations
never recurses. -/
def make (reg : Registry) :
    Nat → EntityFactory → List (String × Value) → PipeState → MResult Value
  | 0 => fun _ _ st => (.error (.jsError "Maximum call stack size exceeded"), st)
  | fuel + 1 => makeF reg (make reg fuel)

/-- `EntityFactory.makeMany`: sequentially invoke `make(overrideParams)`
exactly `amount` times, collecting results in call order. -/
def makeMany (reg : Registry) (fuel : Nat) (fac : EntityFactory) (amount : Nat)
    (overrideParams : List (String × Value)) : PipeState → MResult (List Value) :=
  makeManyGo (make reg fuel fac overrideParams) amount []

/-- The counter currently associated with an entity key
(`sequences.get(name) || 0`). -/
def seqD (st : PipeState) (k : String) : Nat :=
  (alget st.sequences k).getD 0

/-- `n` concatenated copies of a list (the log contribution of `n`
repetitions of one effect). -/
def rep : Nat → List String → List String
  | 0, _ => []
  | n + 1, e => rep n e ++ e

/-- The entities a run of `n` sequence-reporting productions starting at
counter value `base` is expected to deliver: sequence numbers
`base, base + 1, …, base + n - 1` in order. -/
def seqObjs : Nat → Nat → List Value
  | _, 0 => []
  | base, n + 1 => Value.vObj [("seqNo", .vNum base)] :: seqObjs (base + 1) n

/-- The value the override/build field loops leave in a field: the last
occurrence of the key among the provided params, if any. -/
def lastVal : List (String × Value) → String → Option Value
  | [], _ => none
  | (k, v) :: rest, key =>
    match lastVal rest key with
    | some r => some r
    | none => if k = key then some v else none

/-- The `EntityFactory` that `factoryFor` yields for a registered
definition: used to spell out probe scenarios. -/
@[reducible] def facOf (k : String) (d : EntityFactoryDefinition) : EntityFactory :=
  { name := k, entityNew := d.entityNew, definition := d,
    mapFunction := none, activeStates := [] }

/-! ### Probe scenarios

Concrete registries exercising the pipeline, used by the claim theorems.
Generators, hooks and states below are the kind of user callbacks the
library documents: they may record events in the observation log. -/

/-- A definition whose generator writes the received sequence number into
the entity (§8 of the spec: `user${seq}@example.com` style). -/
def plainSeqDef : EntityFactoryDefinition :=
  { entityNew := .vObj []
    factoryFn := some (fun n st => (.ok (.vObj [("seqNo", .vNum n)]), st))
    states := [], beforeMakeHooks := [], afterMakeHooks := [], associations := [] }

/-- Two independent entity keys sharing the sequence-reporting shape. -/
def regSeq : Registry := [("A", plainSeqDef), ("B", plainSeqDef)]

/-- `factory(K).make()` against `regSeq`. -/
def makeKey (k : String) (st : PipeState) : MResult Value :=
  match factoryFor regSeq k with
  | .error e => (.error e, st)
  | .ok fac => make regSeq 1 fac [] st

/-- A word of entity keys produced in order, collecting every result. -/
def runWord : List String → PipeState → List (Except JsErr Value) × PipeState
  | [], st => ([], st)
  | k :: rest, st =>
    match makeKey k st with
    | (r, st2) =>
      match runWord rest st2 with
      | (rs, st3) => (r :: rs, st3)

/-- The results `runWord` is expected to deliver when each key draws from
an abstract counter assignment `f`. -/
def expectedSeqs : List String → (String → Nat) → List (Except JsErr Value)
  | [], _ => []
  | k :: rest, f =>
    .ok (.vObj [("seqNo", .vNum (f k))]) ::
      expectedSeqs rest (fun k2 => if k2 = k then f k + 1 else f k2)

/-- A hook/state/map probe that records its name in the log and leaves
the entity untouched. -/
def logHook (nm : String) : EffFn :=
  fun e st => (.ok e, { st with log := nm :: st.log })

/-- A probe after-hook recording the `role` field it observes. -/
def roleProbeHook : EffFn :=
  fun e st =>
    (.ok e, { st with log :=
      (match getOwn e "role" with
       | some (.vStr s) => s
       | _ => "norole") :: st.log })

/-- The claim scenario of §8: hooks `before1, before2, after1, after2`
registered in that order, no states or associations. -/
def hooksOnlyDef : EntityFactoryDefinition :=
  builderAfterMake (builderAfterMake (builderBeforeMake (builderBeforeMake
    { entityNew := .vObj []
      factoryFn := some (fun _ st => (.ok (.vObj []), st))
      states := [], beforeMakeHooks := [], afterMakeHooks := [], associations := [] }
    (logHook "before1")) (logHook "before2")) (logHook "after1")) (logHook "after2")

def regHooks : Registry := [("H", hooksOnlyDef)]

def facHooks : EntityFactory := facOf "H" hooksOnlyDef

/-- Association target whose generator tags its output and logs. -/
def subTagDef (tag : String) : EntityFactoryDefinition :=
  { entityNew := .vObj []
    factoryFn := some (fun _ st =>
      (.ok (.vObj [("tag", .vStr tag)]), { st with log := ("assoc" ++ tag) :: st.log }))
    states := [], beforeMakeHooks := [], afterMakeHooks := [], associations := [] }

/-- A definition exercising every pipeline phase: logging generator,
two before hooks, two single associations, two named states, and two
after hooks (the first one observing the `role` field). -/
def richDef : EntityFactoryDefinition :=
  builderAfterMake (builderAfterMake
    (builderAssociation (builderAssociation
      (builderBeforeMake (builderBeforeMake
        { entityNew := .vObj []
          factoryFn := some (fun _ st =>
            (.ok (.vObj [("role", .vStr "generated")]), { st with log := "gen" :: st.log }))
          states := [("state1", logHook "state1"), ("state2", logHook "state2")]
          beforeMakeHooks := [], afterMakeHooks := [], associations := [] }
        (logHook "before1")) (logHook "before2"))
      "a1" "T1" none) "a2" "T2" none)
    roleProbeHook) (logHook "after2")

def regRich : Registry := [("R", richDef), ("T1", subTagDef "T1"), ("T2", subTagDef "T2")]

/-- `factory(R).states(['state1','state2']).map(...)`. -/
def facRich : EntityFactory :=
  facMap (facStates (facOf "R" richDef) ["state1", "state2"]) (logHook "map")

/-- Generator sets `role: 'generated'`, state `special` sets
`role: 'state'` (the §8 override-precedence scenario). -/
def roleStateDef : EntityFactoryDefinition :=
  builderState
    { entityNew := .vObj []
      factoryFn := some (fun _ st => (.ok (.vObj [("role", .vStr "generated")]), st))
      states := [], beforeMakeHooks := [], afterMakeHooks := [], associations := [] }
    "special" (fun e st => (.ok (setField e "role" (.vStr "state")), st))

def regC3 : Registry := [("C", roleStateDef)]

def facC3 : EntityFactory := facState (facOf "C" roleStateDef) "special"

/-- Post definitions with `comments`/`comment` associations to a
sequence-reporting `Comment`. -/
def postBase : EntityFactoryDefinition :=
  { entityNew := .vObj []
    factoryFn := some (fun _ st => (.ok (.vObj [("title", .vStr "post")]), st))
    states := [], beforeMakeHooks := [], afterMakeHooks := [], associations := [] }

def postDef : EntityFactoryDefinition :=
  builderAssociation postBase "comments" "Comment" (some 3)

def postOneDef : EntityFactoryDefinition :=
  builderAssociation postBase "comment" "Comment" (some 1)

def regC4 : Registry :=
  [("Post", postDef), ("PostOne", postOneDef), ("Comment", plainSeqDef)]

def facPost : EntityFactory := facOf "Post" postDef

def facPostOne : EntityFactory := facOf "PostOne" postOneDef

/-- One known (logging) state; the factory instance activates the known
state and then a missing one. -/
def knownStateDef : EntityFactoryDefinition :=
  builderState
    { entityNew := .vObj []
      factoryFn := some (fun _ st => (.ok (.vObj []), st))
      states := [], beforeMakeHooks := [], afterMakeHooks := [], associations := [] }
    "known" (logHook "known")

def regC5 : Registry := [("E5", knownStateDef)]

def facC5 : EntityFactory := facStates (facOf "E5" knownStateDef) ["known", "missing"]

/-- Sequence-reporting generator that also logs each invocation. -/
def genLogDef : EntityFactoryDefinition :=
  { entityNew := .vObj []
    factoryFn := some (fun n st =>
      (.ok (.vObj [("seqNo", .vNum n)]), { st with log := "genL" :: st.log }))
    states := [], beforeMakeHooks := [], afterMakeHooks := [], associations := [] }

/-- A generator that logs each invocation and throws exactly on sequence
number 2. -/
def failAt2Def : EntityFactoryDefinition :=
  { entityNew := .vObj []
    factoryFn := some (fun n st =>
      ((if n = 2 then .error (.jsError "generator failed")
        else .ok (.vObj [("seqNo", .vNum n)])),
       { st with log := "genF" :: st.log }))
    states := [], beforeMakeHooks := [], afterMakeHooks := [], associations := [] }

def regC6 : Registry := [("L", genLogDef), ("F", failAt2Def)]

def facL : EntityFactory := facOf "L" genLogDef

def facF : EntityFactory := facOf "F" failAt2Def

/-- Generator producing an entity with a `null`-valued own attribute. -/
def nullAttrDef : EntityFactoryDefinition :=
  { entityNew := .vObj []
    factoryFn := some (fun _ st => (.ok (.vObj [("owner", .vNull)]), st))
    states := [], beforeMakeHooks := [], afterMakeHooks := [], associations := [] }

def regC9 : Registry := [("N", nullAttrDef)]

def facN : EntityFactory := facOf "N" nullAttrDef

/-! ### Association-list and log algebra -/

lemma alget_alset_self {α : Type} (m : List (String × α)) (k : String) (v : α) :
    alget (alset m k v) k = some v := by
  induction m with
  | nil => simp [alget, alset]
  | cons hd tl ih =>
    by_cases hk : hd.1 = k
    · simp [alset, hk, alget]
    · simp [alset, hk, alget, ih]

lemma alget_alset_ne {α : Type} (m : List (String × α)) (k k2 : String) (v : α)
    (h : k2 ≠ k) : alget (alset m k v) k2 = alget m k2 := by
  induction m with
  | nil => simp [alget, alset, Ne.symm h]
  | cons hd tl ih =>
    obtain ⟨a, b⟩ := hd
    by_cases ha : a = k
    · subst ha
      simp [alset, alget, Ne.symm h]
    · simp [alset, alget, ha, ih]

lemma alset_alset {α : Type} (m : List (String × α)) (k : String) (v w : α) :
    alset (alset m k v) k w = alset m k w := by
  induction m with
  | nil => simp [alset]
  | cons hd tl ih =>
    by_cases hk : hd.1 = k
    · simp [alset, hk]
    · simp [alset, hk, ih]

lemma alget_map_zero (m : List (String × Nat)) (k : String) :
    alget (m.map fun kv => (kv.1, 0)) k = (alget m k).map fun _ => 0 := by
  induction m with
  | nil => simp [alget]
  | cons hd tl ih =>
    by_cases hk : hd.1 = k
    · simp [alget, hk]
    · simp [alget, hk, ih]

lemma alget_reset (st : PipeState) (k : String) (n : Nat)
    (h : alget st.sequences k = some n) :
    alget (resetSequencesSt st).sequences k = some 0 := by
  simp [resetSequencesSt, alget_map_zero, h]

lemma seqD_reset (st : PipeState) (k : String) :
    seqD (resetSequencesSt st) k = 0 := by
  simp only [seqD, resetSequencesSt, alget_map_zero]
  cases alget st.sequences k <;> rfl

lemma seqD_alset_self (st : PipeState) (m : List (String × Nat)) (k : String) (v : Nat) :
    seqD { st with sequences := alset m k v } k = v := by
  simp [seqD, alget_alset_self]

lemma seqD_alset_ne (st : PipeState) (m : List (String × Nat)) (k k2 : String) (v : Nat)
    (h : k2 ≠ k) : seqD { st with sequences := alset m k v } k2 = seqD { st with sequences := m } k2 := by
  simp [seqD, alget_alset_ne _ _ _ _ h]

lemma rep_nil (n : Nat) : rep n [] = [] := by
  induction n with
  | zero => rfl
  | succ n ih => simp [rep, ih]

/-! ### Resolution of single attribute values -/

lemma resolveAttribute_vNum (n : Int) : resolveAttribute (.vNum n) = .ok (.vNum n) := by
  simp [resolveAttribute, isPromiseLike, truthy, typeofValue, hasCallableThen, isDate]

lemma resolveAttribute_vStr (s : String) : resolveAttribute (.vStr s) = .ok (.vStr s) := by
  simp [resolveAttribute, isPromiseLike, truthy, typeofValue, hasCallableThen, isDate]

lemma resolveAttribute_vDate (t : Int) : resolveAttribute (.vDate t) = .ok (.vDate t) := by
  simp [resolveAttribute, isPromiseLike, truthy, typeofValue, hasCallableThen, isDate]

lemma isPromiseLike_vDate (t : Int) : isPromiseLike (.vDate t) = false := by
  simp [isPromiseLike, truthy, typeofValue, hasCallableThen, isDate]

lemma resolveAttribute_vNull :
    resolveAttribute .vNull =
      .error (.typeError "Cannot read properties of null (reading 'name')") := rfl

/-! ### Step lemmas for the probe scenarios -/

lemma make_step_genL (st : PipeState) :
    make regC6 1 facL [] st =
      (.ok (.vObj [("seqNo", .vNum (seqD st "L"))]),
       { st with sequences := alset st.sequences "L" (seqD st "L" + 1),
                 log := "genL" :: st.log }) := by
  show makeF regC6 (make regC6 0) facL [] st = _
  simp [makeF, facL, facOf, genLogDef, regC6, resolveEntity, resolveFields,
    resolveAttribute_vNum, runHooks, applyStates, assocGo, applyParams, seqD]

lemma make_step_genF (st : PipeState) :
    make regC6 1 facF [] st =
      ((if seqD st "F" = 2 then .error (.jsError "generator failed")
        else .ok (.vObj [("seqNo", .vNum (seqD st "F"))])),
       { st with sequences := alset st.sequences "F" (seqD st "F" + 1),
                 log := "genF" :: st.log }) := by
  show makeF regC6 (make regC6 0) facF [] st = _
  simp only [seqD]
  by_cases h : (alget st.sequences "F").getD 0 = 2 <;>
    simp [h, makeF, facF, facOf, failAt2Def, regC6, resolveEntity, resolveFields,
      resolveAttribute_vNum, runHooks, applyStates, assocGo, applyParams]

lemma make_step_comment (st : PipeState) :
    make regC4 1 (facOf "Comment" plainSeqDef) [] st =
      (.ok (.vObj [("seqNo", .vNum (seqD st "Comment"))]),
       { st with sequences := alset st.sequences "Comment" (seqD st "Comment" + 1) }) := by
  show makeF regC4 (make regC4 0) (facOf "Comment" plainSeqDef) [] st = _
  simp [makeF, facOf, plainSeqDef, regC4, resolveEntity, resolveFields,
    resolveAttribute_vNum, runHooks, applyStates, assocGo, applyParams, seqD]

lemma makeKey_spec (k : String) (hk : k = "A" ∨ k = "B") (st : PipeState) :
    makeKey k st =
      (.ok (.vObj [("seqNo", .vNum (seqD st k))]),
       { st with sequences := alset st.sequences k (seqD st k + 1) }) := by
  rcases hk with rfl | rfl
  · show makeF regSeq (make regSeq 0) (facOf "A" plainSeqDef) [] st = _
    simp [makeF, facOf, plainSeqDef, regSeq, resolveEntity, resolveFields,
      resolveAttribute_vNum, runHooks, applyStates, assocGo, applyParams, seqD]
  · show makeF regSeq (make regSeq 0) (facOf "B" plainSeqDef) [] st = _
    simp [makeF, facOf, plainSeqDef, regSeq, resolveEntity, resolveFields,
      resolveAttribute_vNum, runHooks, applyStates, assocGo, applyParams, seqD]

/-! ### Counting repeated sequence-reporting productions -/

lemma seqObjs_succ (base n : Nat) :
    seqObjs base (n + 1) =
      Value.vObj [("seqNo", .vNum base)] :: seqObjs (base + 1) n := rfl

lemma makeManyGo_counting (key : String) (entry : List String)
    (mk : PipeState → MResult Value)
    (hmk : ∀ st, mk st =
      (.ok (.vObj [("seqNo", .vNum (seqD st key))]),
       { st with sequences := alset st.sequences key (seqD st key + 1),
                 log := entry ++ st.log })) :
    ∀ (n : Nat) (acc : List Value) (st : PipeState),
      makeManyGo mk n acc st =
        (.ok (acc ++ seqObjs (seqD st key) n),
         { st with
             sequences :=
               if n = 0 then st.sequences
               else alset st.sequences key (seqD st key + n),
             log := rep n entry ++ st.log })
  | 0, acc, st => by simp [makeManyGo, rep, seqObjs]
  | n + 1, acc, st => by
    have ih := makeManyGo_counting key entry mk hmk n
      (acc ++ [Value.vObj [("seqNo", .vNum (seqD st key))]])
      ({ st with sequences := alset st.sequences key (seqD st key + 1), log := entry ++ st.log })
    have hseq : seqD ({ st with sequences := alset st.sequences key (seqD st key + 1), log := entry ++ st.log }) key = seqD st key + 1 := by
      simp [seqD, alget_alset_self]
    rw [hseq] at ih
    simp only [makeManyGo, hmk st]
    rw [ih, seqObjs_succ]
    simp only [Prod.mk.injEq, Except.ok.injEq, PipeState.mk.injEq, rep]
    refine ⟨by simp, ?_, by simp [List.append_assoc]⟩
    cases n with
    | zero => simp
    | succ m =>
      simp only [Nat.succ_ne_zero, if_false, alset_alset, if_neg]
      refine congrArg₂ _ rfl (by omega)

lemma makeManyGo_genL (n : Nat) (acc : List Value) (st : PipeState) :
    makeManyGo (make regC6 1 facL []) n acc st =
      (.ok (acc ++ seqObjs (seqD st "L") n),
       { st with
           sequences :=
             if n = 0 then st.sequences
             else alset st.sequences "L" (seqD st "L" + n),
           log := rep n ["genL"] ++ st.log }) :=
  makeManyGo_counting "L" ["genL"] _ (fun st2 => make_step_genL st2) n acc st

lemma makeManyGo_comment (n : Nat) (acc : List Value) (st : PipeState) :
    makeManyGo (make regC4 1 (facOf "Comment" plainSeqDef) []) n acc st =
      (.ok (acc ++ seqObjs (seqD st "Comment") n),
       { st with
           sequences :=
             if n = 0 then st.sequences
             else alset st.sequences "Comment" (seqD st "Comment" + n) }) := by
  have h := makeManyGo_counting "Comment" []
    (make regC4 1 (facOf "Comment" plainSeqDef) [])
    (fun st2 => by rw [make_step_comment]; simp) n acc st
  rw [h, rep_nil]
  simp

/-! ### Interleaved production words over two keys -/

lemma expectedSeqs_congr : ∀ (w : List String) (f g : String → Nat),
    (∀ k, f k = g k) → expectedSeqs w f = expectedSeqs w g
  | [], _, _, _ => rfl
  | k :: rest, f, g, h => by
    simp only [expectedSeqs, h k, List.cons.injEq]
    refine ⟨by trivial, expectedSeqs_congr rest _ _ fun k2 => ?_⟩
    by_cases hk : k2 = k <;> simp [hk, h]

lemma runWord_results : ∀ (w : List String),
    (∀ k ∈ w, k = "A" ∨ k = "B") → ∀ st,
      (runWord w st).1 = expectedSeqs w (seqD st)
  | [], _, _ => rfl
  | k :: rest, hw, st => by
    have hk : k = "A" ∨ k = "B" := hw k (List.mem_cons_self k rest)
    have hrest : ∀ k2 ∈ rest, k2 = "A" ∨ k2 = "B" :=
      fun k2 h2 => hw k2 (List.mem_cons_of_mem k h2)
    simp only [runWord, makeKey_spec k hk st, expectedSeqs, List.cons.injEq]
    rw [runWord_results rest hrest]
    refine ⟨by trivial, expectedSeqs_congr rest _ _ fun k2 => ?_⟩
    by_cases h2 : k2 = k
    · subst h2; simp [seqD, alget_alset_self]
    · simp [seqD, alget_alset_ne _ _ _ _ h2, h2]

lemma expectedSeqs_get : ∀ (w : List String) (f : String → Nat) (i : Nat) (key : String),
    w[i]? = some key →
    (expectedSeqs w f)[i]? =
      some (.ok (.vObj [("seqNo", .vNum (f key + (w.take i).count key))]))
  | [], _, i, _, h => by simp at h
  | k :: rest, f, 0, key, h => by
    simp only [List.getElem?_cons_zero, Option.some.injEq] at h
    subst h
    simp [expectedSeqs]
  | k :: rest, f, i + 1, key, h => by
    simp only [List.getElem?_cons_succ] at h
    have ih := expectedSeqs_get rest
      (fun k2 => if k2 = k then f k + 1 else f k2) i key h
    simp only [expectedSeqs, List.getElem?_cons_succ, List.take_succ_cons, List.count_cons]
    rw [ih]
    simp only [Option.some.injEq, Except.ok.injEq, Value.vObj.injEq, List.cons.injEq,
      Prod.mk.injEq, Value.vNum.injEq, and_true, true_and, beq_iff_eq]
    by_cases hk : key = k
    · subst hk
      simp only [if_true, eq_self_iff_true]
      omega
    · simp only [if_neg hk, if_neg (Ne.symm hk)]
      omega

lemma mem_of_getElemSome : ∀ (l : List String) (i : Nat) (a : String),
    l[i]? = some a → a ∈ l
  | [], i, a, h => by simp at h
  | b :: t, 0, a, h => by
    simp only [List.getElem?_cons_zero, Option.some.injEq] at h
    exact h ▸ List.mem_cons_self b t
  | b :: t, i + 1, a, h => by
    simp only [List.getElem?_cons_succ] at h
    exact List.mem_cons_of_mem b (mem_of_getElemSome t i a h)

/-! ### Field assignment loops -/

lemma applyParams_getOwn : ∀ (ps fields : List (String × Value)) (key : String),
    getOwn (applyParams ps (.vObj fields)) key =
      (match lastVal ps key with
       | some v => some v
       | none => alget fields key)
  | [], fields, key => by simp [applyParams, getOwn, lastVal]
  | (k, v) :: rest, fields, key => by
    have ih := applyParams_getOwn rest (alset fields k v) key
    simp only [applyParams, List.foldl_cons] at ih ⊢
    rw [show setField (Value.vObj fields) k v = Value.vObj (alset fields k v) from rfl]
    rw [ih]
    simp only [lastVal]
    cases lastVal rest key with
    | some r => rfl
    | none =>
      by_cases hk : k = key
      · subst hk
        simp [alget_alset_self]
      · simp [hk, alget_alset_ne fields k key v (Ne.symm hk)]

lemma applyParams_isObj : ∀ (ps fields : List (String × Value)),
    ∃ fields2, applyParams ps (.vObj fields) = .vObj fields2
  | [], fields => ⟨fields, rfl⟩
  | (k, v) :: rest, fields => by
    have ih := applyParams_isObj rest (alset fields k v)
    simpa [applyParams, List.foldl_cons, setField] using ih

/-! ### Date and null attributes under nested-value resolution -/

lemma resolveFields_vDate_mem : ∀ (fields fields2 : List (String × Value))
    (key : String) (t : Int),
    resolveFields fields = .ok fields2 → (key, Value.vDate t) ∈ fields →
    (key, Value.vDate t) ∈ fields2
  | [], _, _, _, _, hmem => absurd hmem (List.not_mem_nil _)
  | (k, v) :: rest, fields2, key, t, hres, hmem => by
    simp only [resolveFields] at hres
    cases ha : resolveAttribute v with
    | error e => rw [ha] at hres; exact absurd hres (by simp)
    | ok v2 =>
      rw [ha] at hres
      cases hr : resolveFields rest with
      | error e => rw [hr] at hres; exact absurd hres (by simp)
      | ok rest2 =>
        rw [hr] at hres
        simp only [Except.ok.injEq] at hres
        subst hres
        rcases List.mem_cons.mp hmem with h1 | h2
        · rw [Prod.mk.injEq] at h1
          obtain ⟨hk, hv⟩ := h1
          subst hk
          rw [← hv, resolveAttribute_vDate] at ha
          simp only [Except.ok.injEq] at ha
          exact List.mem_cons.mpr (Or.inl (by rw [← ha]))
        · exact List.mem_cons_of_mem _ (resolveFields_vDate_mem rest rest2 key t hr h2)

lemma resolveFields_null_error : ∀ (fields : List (String × Value)) (key : String),
    (key, Value.vNull) ∈ fields → ∃ e, resolveFields fields = .error e
  | [], _, hmem => absurd hmem (List.not_mem_nil _)
  | (k, v) :: rest, key, hmem => by
    rcases List.mem_cons.mp hmem with h1 | h2
    · rw [Prod.mk.injEq] at h1
      obtain ⟨_, hv⟩ := h1
      refine ⟨.typeError "Cannot read properties of null (reading 'name')", ?_⟩
      simp [resolveFields, ← hv, resolveAttribute_vNull]
    · obtain ⟨e, he⟩ := resolveFields_null_error rest key h2
      cases ha : resolveAttribute v with
      | error e2 => exact ⟨e2, by simp [resolveFields, ha]⟩
      | ok v2 => exact ⟨e, by simp [resolveFields, ha, he]⟩

lemma factoryFor_comment : factoryFor regC4 "Comment" = .ok (facOf "Comment" plainSeqDef) := rfl

lemma alget_alset_post_comment (m : List (String × Nat)) (v : Nat) :
    alget (alset m "Post" v) "Comment" = alget m "Comment" :=
  alget_alset_ne m "Post" "Comment" v (by decide)

lemma alget_alset_postone_comment (m : List (String × Nat)) (v : Nat) :
    alget (alset m "PostOne" v) "Comment" = alget m "Comment" :=
  alget_alset_ne m "PostOne" "Comment" v (by decide)

/-! ### Claim theorems -/

/-- C4: an association declared with count 3 yields an array of exactly 3
independently produced target entities, each drawing its own consecutive
target-key sequence number; `isArray` is true iff a count greater than 1
was requested, so a count of 1 (like no count or count 0) yields a single
entity assigned to the field, not an array. -/
theorem c4_association_fanout :
    (∀ (f e : String) (cnt : Option Nat),
        (associationDecl f e cnt).isArray = true ↔ 1 < cnt.getD 0)
    ∧ (∀ st : PipeState,
        make regC4 2 facPost [] st =
          (.ok (.vObj [("title", .vStr "post"),
                       ("comments", .vArr (seqObjs (seqD st "Comment") 3))]),
           { st with sequences := alset (alset st.sequences "Post" (seqD st "Post" + 1)) "Comment" (seqD st "Comment" + 3) }))
    ∧ (∀ st : PipeState,
        make regC4 2 facPostOne [] st =
          (.ok (.vObj [("title", .vStr "post"),
                       ("comment", .vObj [("seqNo", .vNum (seqD st "Comment"))])]),
           { st with sequences := alset (alset st.sequences "PostOne" (seqD st "PostOne" + 1)) "Comment" (seqD st "Comment" + 1) })) := by
  refine ⟨fun f e cnt => ?_, fun st => ?_, fun st => ?_⟩
  · cases cnt <;> simp [associationDecl]
  · show makeF regC4 (make regC4 1) facPost [] st = _
    simp [makeF, facPost, postDef, builderAssociation, associationDecl,
      postBase, resolveEntity, resolveFields, resolveAttribute_vStr, runHooks,
      assocGo, applyStates, applyParams, factoryFor_comment, makeManyGo_comment,
      seqD, alget_alset_post_comment, setField, alset]
  · show makeF regC4 (make regC4 1) facPostOne [] st = _
    simp [makeF, facPostOne, postOneDef, builderAssociation, associationDecl,
      postBase, resolveEntity, resolveFields, resolveAttribute_vStr, runHooks,
      assocGo, applyStates, applyParams, factoryFor_comment, make_step_comment,
      seqD, alget_alset_postone_comment, setField, alset]

/-- C2: the pipeline phases of `make` run in strict order — every before
hook in insertion order, then associations in declaration order, then
activated states in activation order, then the map function, then
override assignment, then every after hook in insertion order.  With
hooks `before1, before2, after1, after2` and no states or associations,
the chronological call log reads exactly
`['before1', 'before2', 'after1', 'after2']`; the richer scenario
additionally interleaves a logging generator, two associations, two
states, a map function and an after hook that observes the
already-overridden `role` field. -/
theorem c2_pipeline_phase_order :
    (∀ st : PipeState,
      make regHooks 1 facHooks [] st =
        (.ok (.vObj []),
         { st with sequences := alset st.sequences "H" (seqD st "H" + 1),
                   log := ["after2", "after1", "before2", "before1"] ++ st.log }))
    ∧ (∀ seqs : List (String × Nat),
        (make regHooks 1 facHooks [] { sequences := seqs, log := [] }).2.log.reverse =
          ["before1", "before2", "after1", "after2"])
    ∧ (∀ st : PipeState,
        (make regRich 2 facRich [("role", .vStr "override")] st).1 =
          .ok (.vObj [("role", .vStr "override"),
                      ("a1", .vObj [("tag", .vStr "T1")]),
                      ("a2", .vObj [("tag", .vStr "T2")])])
        ∧ (make regRich 2 facRich [("role", .vStr "override")] st).2.log =
            ["after2", "override", "map", "state2", "state1", "assocT2",
             "assocT1", "before2", "before1", "gen"] ++ st.log) :=
  ⟨fun _ => rfl, fun _ => rfl, fun _ => ⟨rfl, rfl⟩⟩

/-- C3: override fields passed to `make` are assigned unconditionally
after generator output, states and the map function: with a generator
setting `role: 'generated'` and an activated state setting
`role: 'state'`, `make({role: 'override'})` yields `role = 'override'`;
and in general every key present in the override params ends up carrying
its (last) override value. -/
theorem c3_override_precedence :
    (∀ st : PipeState,
      (make regC3 1 facC3 [("role", .vStr "override")] st).1 =
        .ok (.vObj [("role", .vStr "override")]))
    ∧ (∀ (ov fields : List (String × Value)) (key : String) (v : Value),
        lastVal ov key = some v →
        getOwn (applyParams ov (.vObj fields)) key = some v) := by
  refine ⟨fun st => rfl, fun ov fields key v h => ?_⟩
  rw [applyParams_getOwn, h]

theorem c3_override_precedence_witness :
    getOwn (applyParams [("role", Value.vStr "override")]
        (.vObj [("role", Value.vStr "state")])) "role" =
      some (Value.vStr "override") :=
  c3_override_precedence.2 [("role", .vStr "override")]
    [("role", .vStr "state")] "role" (Value.vStr "override") rfl

/-- C5: when an activated state name has no state function in the
definition, `make` rejects with `State "<name>" is not defined for
<entity>`; states activated before the missing one (here `known`, which
logs) have already been applied, and no entity is returned.  The message
contains the literal state name. -/
theorem c5_undefined_state :
    (∀ st : PipeState,
      make regC5 1 facC5 [] st =
        (.error (.jsError "State \"missing\" is not defined for E5"),
         { st with sequences := alset st.sequences "E5" (seqD st "E5" + 1),
                   log := "known" :: st.log }))
    ∧ (∃ pre post : String,
        "State \"missing\" is not defined for E5" = pre ++ "missing" ++ post) :=
  ⟨fun _ => rfl, ⟨"State \"", "\" is not defined for E5", by decide⟩⟩

/-- C7: `build(fieldValues)` constructs a fresh default instance of the
entity type and assigns exactly the provided own fields onto it: a field
holds its last provided value, any other field keeps the default
instance's value, the result is still an instance (an object) of the
entity type, and the call touches no pipeline state — it invokes no
generator, hook, state, association or map function and leaves every
sequence counter unchanged. -/
theorem c7_build_bypasses_pipeline (fac : EntityFactory)
    (params : List (String × Value)) (dflt : List (String × Value))
    (hnew : fac.entityNew = .vObj dflt) :
    (∀ key, getOwn (build fac params) key =
        (match lastVal params key with
         | some v => some v
         | none => alget dflt key))
    ∧ (∃ fields2, build fac params = .vObj fields2)
    ∧ (∀ st, buildCall fac params st = (.ok (build fac params), st)) := by
  refine ⟨fun key => ?_, ?_, fun st => rfl⟩
  · rw [build, hnew, applyParams_getOwn]
  · rw [build, hnew]
    exact applyParams_isObj params dflt

theorem c7_build_bypasses_pipeline_witness :
    getOwn (build facHooks [("email", Value.vStr "x")]) "email" =
      some (Value.vStr "x") :=
  (c7_build_bypasses_pipeline facHooks [("email", .vStr "x")] [] rfl).1 "email"

/-- C8: a Date-valued own attribute of the raw entity is never treated
as awaitable (`isPromiseLike` is false on Dates) and never has `make`
invoked on it: single-attribute resolution returns it unchanged, and
whenever nested-value resolution of an entity succeeds, every Date-valued
attribute of the input is still present, with the identical Date value,
in the output. -/
theorem c8_date_exclusion (t : Int) :
    isPromiseLike (.vDate t) = false
    ∧ resolveAttribute (.vDate t) = .ok (.vDate t)
    ∧ (∀ (fields fields2 : List (String × Value)) (key : String),
        resolveEntity (.vObj fields) = .ok (.vObj fields2) →
        (key, Value.vDate t) ∈ fields → (key, Value.vDate t) ∈ fields2) := by
  refine ⟨isPromiseLike_vDate t, resolveAttribute_vDate t,
    fun fields fields2 key hres hmem => ?_⟩
  cases hr : resolveFields fields with
  | error e =>
    simp only [resolveEntity, hr] at hres
    exact Except.noConfusion hres
  | ok f2 =>
    simp only [resolveEntity, hr, Except.ok.injEq, Value.vObj.injEq] at hres
    exact hres ▸ resolveFields_vDate_mem fields f2 key t hr hmem

theorem c8_date_exclusion_witness :
    ("when", Value.vDate 5) ∈ ([("when", Value.vDate 5)] : List (String × Value)) :=
  (c8_date_exclusion 5).2.2 [("when", .vDate 5)] [("when", .vDate 5)] "when" rfl
    (List.mem_cons_self _ _)

/-- C9: an own attribute whose value is `null` makes `make` reject:
`null` passes the non-Date-object test (`typeof null` is `'object'`),
reading its `make` property throws inside the `try`, and the `catch`
block then reads `.name` of `null`, throwing a `TypeError` out of the
error-message construction — so resolution of any entity carrying a
`null` attribute fails rather than leaving the attribute unchanged. -/
theorem c9_null_attribute_rejects :
    resolveAttribute .vNull =
      .error (.typeError "Cannot read properties of null (reading 'name')")
    ∧ (∀ (fields : List (String × Value)) (key : String),
        (key, Value.vNull) ∈ fields → ∃ e, resolveFields fields = .error e)
    ∧ (∀ st : PipeState,
        make regC9 1 facN [] st =
          (.error (.typeError "Cannot read properties of null (reading 'name')"),
           { st with sequences := alset st.sequences "N" (seqD st "N" + 1) })) :=
  ⟨rfl, fun fields key h => resolveFields_null_error fields key h, fun _ => rfl⟩

theorem c9_null_attribute_rejects_witness :
    ∃ e, resolveFields [("owner", Value.vNull)] = .error e :=
  c9_null_attribute_rejects.2.1 [("owner", .vNull)] "owner" (List.mem_cons_self _ _)

/-- C1: over any interleaved word of productions of the keys `A` and `B`
starting with both counters at 0, the i-th production of the word draws
exactly the number of earlier productions of the same key — sequence
numbers 0, 1, … per key in call order, unperturbed by the other key —
and `resetSequences` sets every currently-tracked counter back to `some 0`,
after which the next production of either key draws 0 again. -/
theorem c1_sequence_numbers (w : List String)
    (hw : ∀ k ∈ w, k = "A" ∨ k = "B") (st : PipeState)
    (hA : seqD st "A" = 0) (hB : seqD st "B" = 0)
    (i : Nat) (key : String) (hkey : w[i]? = some key) :
    (runWord w st).1[i]? =
      some (.ok (.vObj [("seqNo", .vNum ((w.take i).count key))]))
    ∧ (∀ k n, alget (runWord w st).2.sequences k = some n →
        alget (resetSequencesSt (runWord w st).2).sequences k = some 0)
    ∧ (makeKey key (resetSequencesSt (runWord w st).2)).1 =
        .ok (.vObj [("seqNo", .vNum 0)]) := by
  have hkAB : key = "A" ∨ key = "B" := hw key (mem_of_getElemSome w i key hkey)
  refine ⟨?_, fun k n h => alget_reset _ k n h, ?_⟩
  · rw [runWord_results w hw st, expectedSeqs_get w (seqD st) i key hkey]
    rcases hkAB with rfl | rfl
    · rw [hA]; simp
    · rw [hB]; simp
  · rw [makeKey_spec key hkAB _, seqD_reset]
    simp

theorem c1_sequence_numbers_witness :
    (runWord ["A", "B", "A"] { sequences := [], log := [] }).1[2]? =
      some (.ok (.vObj [("seqNo",
        .vNum ((["A", "B", "A"].take 2).count "A"))]))
    ∧ (∀ k n,
        alget (runWord ["A", "B", "A"] { sequences := [], log := [] }).2.sequences k = some n →
        alget (resetSequencesSt
          (runWord ["A", "B", "A"] { sequences := [], log := [] }).2).sequences k = some 0)
    ∧ (makeKey "A" (resetSequencesSt
        (runWord ["A", "B", "A"] { sequences := [], log := [] }).2)).1 =
        .ok (.vObj [("seqNo", .vNum 0)]) :=
  c1_sequence_numbers ["A", "B", "A"] (by decide)
    { sequences := [], log := [] } rfl rfl 2 "A" rfl

/-- C6: `makeMany(count, overrides)` invokes `make` exactly `count`
times sequentially, collecting results in call order (the logging
generator records exactly `count` invocations and draws `count`
consecutive sequence numbers); and a failing production aborts the whole
batch: with a generator that throws on its third draw, `makeMany(4)`
rejects after exactly three generator invocations and returns none of
the two entities already produced. -/
theorem c6_makeMany_sequential_all_or_nothing :
    (∀ (n : Nat) (st : PipeState),
      makeMany regC6 1 facL n [] st =
        (.ok (seqObjs (seqD st "L") n),
         { st with
             sequences :=
               if n = 0 then st.sequences
               else alset st.sequences "L" (seqD st "L" + n),
             log := rep n ["genL"] ++ st.log }))
    ∧ makeMany regC6 1 facF 4 [] { sequences := [], log := [] } =
        (.error (.jsError "generator failed"),
         { sequences := [("F", 3)], log := ["genF", "genF", "genF"] }) := by
  refine ⟨fun n st => ?_, rfl⟩
  show makeManyGo (make regC6 1 facL []) n [] st = _
  rw [makeManyGo_genL n [] st]
  simp

/-- C10: a `make` that fails after the sequence draw still consumes the
sequence number: with a generator throwing exactly on draw 2, the failing
call leaves the counter at 3 (incremented, never rolled back), and the
next `make` for the same key succeeds with sequence number 3 — one
greater than the failed call's — leaving a gap in the successful
sequence. -/
theorem c10_failed_make_consumes_sequence (st : PipeState)
    (h : seqD st "F" = 2) :
    (make regC6 1 facF [] st).1 = .error (.jsError "generator failed")
    ∧ seqD (make regC6 1 facF [] st).2 "F" = 3
    ∧ (make regC6 1 facF [] (make regC6 1 facF [] st).2).1 =
        .ok (.vObj [("seqNo", .vNum 3)])
    ∧ seqD (make regC6 1 facF [] (make regC6 1 facF [] st).2).2 "F" = 4 := by
  have h1 := make_step_genF st
  rw [h] at h1
  simp only [if_true, eq_self_iff_true] at h1
  have hseq2 : seqD ({ st with sequences := alset st.sequences "F" (2 + 1), log := "genF" :: st.log }) "F" = 3 := by
    simp [seqD, alget_alset_self]
  have h2 := make_step_genF
    ({ st with sequences := alset st.sequences "F" (2 + 1), log := "genF" :: st.log })
  rw [hseq2] at h2
  simp only [show ((3 : Nat) = 2) = False from by simp] at h2
  simp only [if_false] at h2
  refine ⟨by simp [h1], by simp [h1, hseq2], ?_, ?_⟩
  · simp only [h1]
    simp [h2]
  · simp only [h1]
    simp [h2, seqD, alget_alset_self]

theorem c10_failed_make_consumes_sequence_witness :
    (make regC6 1 facF [] { sequences := [("F", 2)], log := [] }).1 =
      .error (.jsError "generator failed")
    ∧ seqD (make regC6 1 facF [] { sequences := [("F", 2)], log := [] }).2 "F" = 3
    ∧ (make regC6 1 facF []
        (make regC6 1 facF [] { sequences := [("F", 2)], log := [] }).2).1 =
        .ok (.vObj [("seqNo", .vNum 3)])
    ∧ seqD (make regC6 1 facF []
        (make regC6 1 facF [] { sequences := [("F", 2)], log := [] }).2).2 "F" = 4 :=
  c10_failed_make_consumes_sequence { sequences := [("F", 2)], log := [] } rfl

end TypeormFactories
